import Mathlib

/-!
Verification of the enclaver repository's natural-language specification
against a shallow embedding of its Rust sources.

Strings from the Rust code are modelled as lists of Unicode scalar values
(`List Nat`); `str` converts a Lean string literal to that representation.
-/

set_option autoImplicit false

namespace Enclaver

/-- Convert a string literal to its list of character codes. -/
def str (s : String) : List Nat := s.toList.map Char.toNat

/-- ASCII lower-casing of a single character code, as in Rust's
`to_ascii_lowercase`: codes 65..90 are shifted by 32, all others kept. -/
def asciiLowerCode (n : Nat) : Nat := if 65 ≤ n ∧ n ≤ 90 then n + 32 else n

/-- Rust's `str::eq_ignore_ascii_case` on character-code lists. -/
def eqIgnoreAsciiCase (a b : List Nat) : Bool :=
  a.map asciiLowerCode == b.map asciiLowerCode

theorem asciiLowerCode_idem (n : Nat) :
    asciiLowerCode (asciiLowerCode n) = asciiLowerCode n := by
  unfold asciiLowerCode
  split
  · rename_i h
    have : ¬ (65 ≤ n + 32 ∧ n + 32 ≤ 90) := by omega
    simp only [if_neg this]
  · rfl

/-! ## KMS proxy request classification (src/enclaver/src/proxy/kms.rs) -/

/-- HTTP method of an incoming request. -/
inductive Method where
  | POST
  | GET
  | PUT
  | DELETE
  | HEAD
  | OPTIONS
  deriving DecidableEq, Repr

/-- `KmsRequestIncoming`: the parts of an incoming KMS-proxy request that
`is_attesting_action` inspects (method, URI path, `X-Amz-Target` header). -/
structure KmsRequestIncoming where
  method : Method
  path : List Nat
  target : Option (List Nat)
  body : List Nat
  deriving DecidableEq, Repr

/-- The `ATTESTING_ACTIONS` constant from kms.rs (three actions). -/
def ATTESTING_ACTIONS : List (List Nat) :=
  [str ("TrentService.Decrypt"),
   str ("TrentService.GenerateDataKey"),
   str ("TrentService.GenerateRandom")]

/-- `KmsRequestIncoming::is_attesting_action`: POST to "/" whose
`X-Amz-Target` equals one of `ATTESTING_ACTIONS` ASCII-case-insensitively. -/
def KmsRequestIncoming.is_attesting_action (r : KmsRequestIncoming) : Bool :=
  if r.method = Method.POST then
    if r.path = str ("/") then
      match r.target with
      | some action => ATTESTING_ACTIONS.any (fun a => eqIgnoreAsciiCase a action)
      | none => false
    else false
  else false

/-- Which path of `KmsProxyHandler::handle` processes a request. -/
inductive KmsHandlerPath where
  | attesting
  | forward
  deriving DecidableEq, Repr

/-- `KmsProxyHandler::handle`: dispatch on `is_attesting_action`. -/
def KmsProxyHandler.dispatch (r : KmsRequestIncoming) : KmsHandlerPath :=
  if r.is_attesting_action then KmsHandlerPath.attesting else KmsHandlerPath.forward

/-- C1 (counterexample): the claim lists `TrentService.GenerateDataKeyPair`
among the attesting actions, but the code's `ATTESTING_ACTIONS` has only
three entries, so a POST to "/" targeting `TrentService.GenerateDataKeyPair`
is dispatched to the plain forwarding path, not the attesting path. -/
theorem kms_generateDataKeyPair_is_forwarded :
    KmsProxyHandler.dispatch
      { method := Method.POST
        path := str ("/")
        target := some (str ("TrentService.GenerateDataKeyPair"))
        body := [] } = KmsHandlerPath.forward := by
  decide

/-- C1 (amended): a request is handled on the attesting path if and only if
it is a POST to path "/" whose `X-Amz-Target` header equals, ASCII
case-insensitively, one of exactly these three actions:
`TrentService.Decrypt`, `TrentService.GenerateDataKey`,
`TrentService.GenerateRandom`; all other requests are forwarded. -/
theorem kms_dispatch_attesting_iff (r : KmsRequestIncoming) :
    KmsProxyHandler.dispatch r = KmsHandlerPath.attesting ↔
      (r.method = Method.POST ∧ r.path = str ("/") ∧
        ∃ t, r.target = some t ∧
          (eqIgnoreAsciiCase (str ("TrentService.Decrypt")) t = true ∨
           eqIgnoreAsciiCase (str ("TrentService.GenerateDataKey")) t = true ∨
           eqIgnoreAsciiCase (str ("TrentService.GenerateRandom")) t = true)) := by
  have hdisp : KmsProxyHandler.dispatch r = KmsHandlerPath.attesting ↔
      r.is_attesting_action = true := by
    unfold KmsProxyHandler.dispatch
    cases h : r.is_attesting_action <;> simp [h]
  rw [hdisp]
  obtain ⟨m, p, t, b⟩ := r
  cases m with
  | POST =>
    by_cases hp : p = str ("/")
    · subst hp
      cases t with
      | none => simp [KmsRequestIncoming.is_attesting_action]
      | some action =>
        simp [KmsRequestIncoming.is_attesting_action, ATTESTING_ACTIONS]
    · simp [KmsRequestIncoming.is_attesting_action, hp]
  | GET => simp [KmsRequestIncoming.is_attesting_action]
  | PUT => simp [KmsRequestIncoming.is_attesting_action]
  | DELETE => simp [KmsRequestIncoming.is_attesting_action]
  | HEAD => simp [KmsRequestIncoming.is_attesting_action]
  | OPTIONS => simp [KmsRequestIncoming.is_attesting_action]

/-! ## Runner exit-code mapping (src/enclaver/src/bin/enclaver-run/main.rs) -/

/-- `EnclaveExitStatus` from src/enclaver/src/run.rs. The `Exited` and
`Signaled` payloads are Rust `i32` values, modelled as `Int`. -/
inductive EnclaveExitStatus where
  | Cancelled
  | Exited (code : Int)
  | Signaled (signal : Int)
  | Fatal (err : String)

/-- `ENCLAVE_SIGNALED_EXIT_CODE` from enclaver-run/main.rs. -/
def ENCLAVE_SIGNALED_EXIT_CODE : Nat := 107

/-- `ENCLAVE_FATAL` from enclaver-run/main.rs. -/
def ENCLAVE_FATAL : Nat := 108

/-- `ENCLAVER_INTERRUPTED` from enclaver-run/main.rs. -/
def ENCLAVER_INTERRUPTED : Nat := 109

/-- `CLISuccess` from enclaver-run/main.rs. -/
inductive CLISuccess where
  | EnclaveStatus (status : EnclaveExitStatus)
  | Ok

/-- `impl Termination for CLISuccess`: the runner's process exit code.
Rust's `code as u8` truncation of an `i32` is `code mod 256` (in `[0, 256)`),
written with `Int.emod`. -/
def CLISuccess.report : CLISuccess → Nat
  | CLISuccess.EnclaveStatus (EnclaveExitStatus.Exited code) => (code % 256).toNat
  | CLISuccess.EnclaveStatus (EnclaveExitStatus.Signaled _) => ENCLAVE_SIGNALED_EXIT_CODE
  | CLISuccess.EnclaveStatus (EnclaveExitStatus.Fatal _) => ENCLAVE_FATAL
  | CLISuccess.EnclaveStatus EnclaveExitStatus.Cancelled => ENCLAVER_INTERRUPTED
  | CLISuccess.Ok => 0

/-- C7: the runner's exit code is a total deterministic function of the final
`EnclaveExitStatus`: `Exited(c)` maps to the lower 8 bits of the i32 `c`
(its value modulo 2^32, then modulo 2^8), `Signaled` to 107, `Fatal` to 108
and `Cancelled` to 109. -/
theorem runner_exit_code_mapping :
    (∀ c : Int,
        CLISuccess.report (CLISuccess.EnclaveStatus (EnclaveExitStatus.Exited c)) =
          (c % 2 ^ 32 % 2 ^ 8).toNat) ∧
    (∀ s : Int,
        CLISuccess.report (CLISuccess.EnclaveStatus (EnclaveExitStatus.Signaled s)) = 107) ∧
    (∀ e : String,
        CLISuccess.report (CLISuccess.EnclaveStatus (EnclaveExitStatus.Fatal e)) = 108) ∧
    CLISuccess.report (CLISuccess.EnclaveStatus EnclaveExitStatus.Cancelled) = 109 := by
  refine ⟨fun c => ?_, fun s => rfl, fun e => rfl, rfl⟩
  have h : (c % 2 ^ 32) % 2 ^ 8 = c % 2 ^ 8 := by
    apply Int.emod_emod_of_dvd
    decide
  rw [h]
  rfl

/-! ## Egress proxy environment variables (src/enclaver/src/bin/odyn/egress.rs) -/

/-- Process environment, modelled as a partial map from names to values. -/
def EnvMap : Type := String → Option String

/-- Setting one environment variable (`std::env::set_var`). -/
def setVar (k v : String) (env : EnvMap) : EnvMap :=
  fun k2 => if k2 = k then some v else env k2

/-- `set_proxy_env_var` from egress.rs: sets `http_proxy`, `https_proxy`,
`HTTP_PROXY` and `HTTPS_PROXY` to the given value. -/
def set_proxy_env_var (value : String) (env : EnvMap) : EnvMap :=
  setVar ("HTTPS_PROXY") value
    (setVar ("HTTP_PROXY") value
      (setVar ("https_proxy") value
        (setVar ("http_proxy") value env)))

/-- The `egress` manifest section (fields inspected by egress.rs). -/
structure EgressManifest where
  allow : Option (List String)
  deny : Option (List String)
  proxy_port : Option Nat

/-- The parts of odyn's `Configuration` that egress.rs reads. -/
structure Configuration where
  egress : Option EgressManifest

/-- `HTTP_EGRESS_PROXY_PORT` from egress.rs. -/
def HTTP_EGRESS_PROXY_PORT : Nat := 9000

/-- `is_enabled` from egress.rs: egress is enabled iff the manifest has an
egress section with a non-empty allow list. -/
def is_enabled (config : Configuration) : Bool :=
  match config.egress with
  | some egress =>
    match egress.allow with
    | some allow => !allow.isEmpty
    | none => false
  | none => false

/-- `proxy_port` from egress.rs. -/
def proxy_port (config : Configuration) : Nat :=
  match config.egress with
  | some egress => egress.proxy_port.getD HTTP_EGRESS_PROXY_PORT
  | none => HTTP_EGRESS_PROXY_PORT

/-- The environment mutation performed by `EgressService::start` before the
child process is launched: when egress is enabled it calls
`set_proxy_env_var("http://127.0.0.1:<proxy_port>")`, otherwise it leaves the
environment alone. -/
def EgressService.start_env (config : Configuration) (env : EnvMap) : EnvMap :=
  if is_enabled config then
    set_proxy_env_var ("http://127.0.0.1:" ++ toString (proxy_port config)) env
  else
    env

/-- C8 (counterexample): the claim says starting the egress service also sets
`no_proxy` and `NO_PROXY` to `localhost,127.0.0.1`, but `set_proxy_env_var`
only sets the four proxy variables: starting from an empty environment with
egress enabled, `no_proxy` remains unset. -/
theorem egress_start_does_not_set_no_proxy :
    EgressService.start_env
      (Configuration.mk (some (EgressManifest.mk (some [("example.com")]) none none)))
      (fun _ => none) ("no_proxy") = none := by
  decide

/-- C8 (amended): when egress is enabled, starting the egress service sets,
before the child is launched, exactly the four process-wide variables
`http_proxy`, `https_proxy`, `HTTP_PROXY`, `HTTPS_PROXY` to
`http://127.0.0.1:<proxy_port>`; it does not set `no_proxy`/`NO_PROXY`, and
every other variable is left unchanged. -/
theorem egress_start_env_spec (config : Configuration) (env : EnvMap)
    (hen : is_enabled config = true) :
    EgressService.start_env config env ("http_proxy") =
        some ("http://127.0.0.1:" ++ toString (proxy_port config)) ∧
    EgressService.start_env config env ("https_proxy") =
        some ("http://127.0.0.1:" ++ toString (proxy_port config)) ∧
    EgressService.start_env config env ("HTTP_PROXY") =
        some ("http://127.0.0.1:" ++ toString (proxy_port config)) ∧
    EgressService.start_env config env ("HTTPS_PROXY") =
        some ("http://127.0.0.1:" ++ toString (proxy_port config)) ∧
    ∀ k, k ≠ ("http_proxy") → k ≠ ("https_proxy") →
      k ≠ ("HTTP_PROXY") → k ≠ ("HTTPS_PROXY") →
      EgressService.start_env config env k = env k := by
  unfold EgressService.start_env
  rw [if_pos hen]
  refine ⟨?_, ?_, ?_, ?_, ?_⟩
  · simp [set_proxy_env_var, setVar]
  · simp [set_proxy_env_var, setVar]
  · simp [set_proxy_env_var, setVar]
  · simp [set_proxy_env_var, setVar]
  · intro k h1 h2 h3 h4
    simp [set_proxy_env_var, setVar, h1, h2, h3, h4]

/-- C8 witness: the amended theorem applied to a concrete enabled
configuration and the empty environment, with `k := "NO_PROXY"`. -/
theorem egress_start_env_spec_witness :
    is_enabled (Configuration.mk (some (EgressManifest.mk (some [("example.com")]) none none))) = true ∧
    EgressService.start_env
        (Configuration.mk (some (EgressManifest.mk (some [("example.com")]) none none))) (fun _ => none) ("NO_PROXY") =
      (fun (_ : String) => (none : Option String)) ("NO_PROXY") :=
  ⟨by decide,
    (egress_start_env_spec
        (Configuration.mk (some (EgressManifest.mk (some [("example.com")]) none none)))
        (fun _ => none) (by decide)).2.2.2.2 ("NO_PROXY")
      (by decide) (by decide) (by decide) (by decide)⟩

/-! ## Domain filter (src/enclaver/src/policy/domain_filter.rs) -/

/-- Rust's `str::split('.')` on character-code lists (46 is the dot):
splits at every dot, keeping empty pieces; the empty string yields `[""]`. -/
def splitDots : List Nat → List (List Nat)
  | [] => [[]]
  | c :: rest =>
    if c = 46 then [] :: splitDots rest
    else
      match splitDots rest with
      | r :: rs => (c :: r) :: rs
      | [] => [[c]]

/-- `PatternPart` from domain_filter.rs. -/
inductive PatternPart where
  | Superwild
  | Wild
  | Named (name : List Nat)
  deriving DecidableEq, Repr

/-- `PatternPart::new`: `**` and `*` are wildcards, anything else is an
ASCII-lowercased literal label. -/
def PatternPart.new (part : List Nat) : PatternPart :=
  if part = str ("**") then PatternPart.Superwild
  else if part = str ("*") then PatternPart.Wild
  else PatternPart.Named (part.map asciiLowerCode)

/-- `Pattern::new`: split the pattern on dots, build parts, and reverse so
that matching runs right-to-left. -/
def Pattern.new (pat : List Nat) : List PatternPart :=
  ((splitDots pat).map PatternPart.new).reverse

/-- `Domain::new`: split the domain on dots, lower-case each label, reverse. -/
def Domain.new (dom : List Nat) : List (List Nat) :=
  ((splitDots dom).map (List.map asciiLowerCode)).reverse

/-- `Pattern::matches`: the matching loop over reversed label lists. -/
def Pattern.matches : List PatternPart → List (List Nat) → Bool
  | [], qs => qs.isEmpty
  | _ :: _, [] => false
  | PatternPart.Superwild :: _, _ :: _ => true
  | PatternPart.Wild :: ps, _ :: qs => Pattern.matches ps qs
  | PatternPart.Named n :: ps, q :: qs =>
    if n = q then Pattern.matches ps qs else false

/-- `DomainFilter` from domain_filter.rs: a list of compiled patterns. -/
structure DomainFilter where
  patterns : List (List PatternPart)

/-- `DomainFilter::matches`: any pattern matches the compiled domain. -/
def DomainFilter.matches (df : DomainFilter) (domain : List Nat) : Bool :=
  df.patterns.any (fun pat => Pattern.matches pat (Domain.new domain))

/-- Declarative matching relation over reversed label lists, following the
spec: an exact part matches only an equal label, `*` matches exactly one
label, and `**` matches one or more remaining (leading) labels — per the
spec's own example, `**.example.com` does not match `example.com`. -/
inductive MatchesSpec : List PatternPart → List (List Nat) → Prop where
  | nil : MatchesSpec [] []
  | superwild (ps : List PatternPart) (q : List Nat) (qs : List (List Nat)) :
      MatchesSpec (PatternPart.Superwild :: ps) (q :: qs)
  | wild (ps : List PatternPart) (q : List Nat) (qs : List (List Nat)) :
      MatchesSpec ps qs → MatchesSpec (PatternPart.Wild :: ps) (q :: qs)
  | named (n : List Nat) (ps : List PatternPart) (qs : List (List Nat)) :
      MatchesSpec ps qs → MatchesSpec (PatternPart.Named n :: ps) (n :: qs)

theorem matches_iff_matchesSpec (ps : List PatternPart) :
    ∀ qs, Pattern.matches ps qs = true ↔ MatchesSpec ps qs := by
  induction ps with
  | nil =>
    intro qs
    cases qs with
    | nil => simpa [Pattern.matches] using MatchesSpec.nil
    | cons q qs =>
      simp only [Pattern.matches, List.isEmpty_cons, Bool.false_eq_true, false_iff]
      intro h
      cases h
  | cons p ps ih =>
    intro qs
    cases qs with
    | nil =>
      simp only [Pattern.matches, Bool.false_eq_true, false_iff]
      intro h
      cases h
    | cons q qs =>
      cases p with
      | Superwild =>
        simp only [Pattern.matches, true_iff]
        exact MatchesSpec.superwild ps q qs
      | Wild =>
        rw [Pattern.matches, ih qs]
        constructor
        · exact fun h => MatchesSpec.wild ps q qs h
        · intro h
          cases h
          assumption
      | Named n =>
        rw [Pattern.matches]
        by_cases hq : n = q
        · subst hq
          rw [if_pos rfl, ih qs]
          constructor
          · exact fun h => MatchesSpec.named n ps qs h
          · intro h
            cases h
            assumption
        · rw [if_neg hq]
          simp only [Bool.false_eq_true, false_iff]
          intro h
          cases h
          exact hq rfl

theorem asciiLowerCode_eq_dot_iff (c : Nat) : asciiLowerCode c = 46 ↔ c = 46 := by
  unfold asciiLowerCode
  split
  · rename_i h
    omega
  · exact Iff.rfl

theorem splitDots_map_asciiLower (l : List Nat) :
    splitDots (l.map asciiLowerCode) =
      (splitDots l).map (List.map asciiLowerCode) := by
  induction l with
  | nil => rfl
  | cons c rest ih =>
    by_cases hc : c = 46
    · subst hc
      simp [splitDots, asciiLowerCode, ih]
    · have hc2 : ¬ asciiLowerCode c = 46 := fun h => hc ((asciiLowerCode_eq_dot_iff c).mp h)
      rw [List.map_cons, splitDots, if_neg hc2, splitDots, if_neg hc, ih]
      cases h : splitDots rest with
      | nil => simp
      | cons r rs => simp

theorem map_asciiLower_idem (l : List Nat) :
    (l.map asciiLowerCode).map asciiLowerCode = l.map asciiLowerCode := by
  rw [List.map_map]
  exact List.map_congr_left (fun c _ => asciiLowerCode_idem c)

theorem Domain.new_lower (dom : List Nat) :
    Domain.new (dom.map asciiLowerCode) = Domain.new dom := by
  unfold Domain.new
  rw [splitDots_map_asciiLower, List.map_map]
  congr 1
  exact List.map_congr_left (fun part _ => map_asciiLower_idem part)

/-- C4: domain-pattern matching is ASCII case-insensitive over labels split
on dots and compared right-to-left; the compiled matcher is equivalent to the
declarative relation where `**` matches any (nonzero) number of leading
labels, `*` exactly one, and an exact part only an equal label; consequently
`foo.example.com` matches `**.example.com` while `example.com` does not. -/
theorem domain_pattern_matching_spec :
    (∀ pat dom, Pattern.matches (Pattern.new pat) (Domain.new (dom.map asciiLowerCode)) =
        Pattern.matches (Pattern.new pat) (Domain.new dom)) ∧
    (∀ ps qs, Pattern.matches ps qs = true ↔ MatchesSpec ps qs) ∧
    Pattern.matches (Pattern.new (str ("**.example.com")))
      (Domain.new (str ("foo.example.com"))) = true ∧
    Pattern.matches (Pattern.new (str ("**.example.com")))
      (Domain.new (str ("example.com"))) = false := by
  refine ⟨?_, matches_iff_matchesSpec, by decide, by decide⟩
  intro pat dom
  rw [Domain.new_lower]

/-! ## Egress policy (src/enclaver/src/policy/mod.rs)

The standard library's `IpAddr` values and its textual parser, and the
`ipnetwork` crate's CIDR containment, are external to this repository; they
are modelled by an opaque address type, an arbitrary parse function passed as
a parameter, and per-pattern predicates inside `IpFilter`. -/

/-- Opaque model of a parsed `std::net::IpAddr` value. -/
structure IpAddr where
  code : Nat
  deriving DecidableEq, Repr

/-- `IpFilter` from policy/ip_filter.rs: a list of CIDR patterns, each
modelled by its containment predicate. -/
structure IpFilter where
  patterns : List (IpAddr → Bool)

/-- `IpFilter::matches`: any pattern contains the address. -/
def IpFilter.matches (f : IpFilter) (addr : IpAddr) : Bool :=
  f.patterns.any (fun p => p addr)

/-- `EgressPolicy` from policy/mod.rs. -/
structure EgressPolicy where
  domain_allow : DomainFilter
  domain_deny : DomainFilter
  ip_allow : IpFilter
  ip_deny : IpFilter

/-- The bracket stripping at the top of `is_host_allowed`:
`strip_prefix('[')` then `strip_suffix(']')`, each a no-op when absent
(91 and 93 are the bracket codes). -/
def stripHost (h : List Nat) : List Nat :=
  let h1 := match h with
    | 91 :: rest => rest
    | _ => h
  match h1.getLast? with
  | some 93 => h1.dropLast
  | _ => h1

/-- `EgressPolicy::is_host_allowed`, parameterized by the external
`str::parse::<IpAddr>` function: if the stripped host parses as an IP
address, consult the CIDR filters, otherwise the domain filters. -/
def EgressPolicy.is_host_allowed (parseIp : List Nat → Option IpAddr)
    (pol : EgressPolicy) (host : List Nat) : Bool :=
  let host2 := stripHost host
  match parseIp host2 with
  | some addr => pol.ip_allow.matches addr && !(pol.ip_deny.matches addr)
  | none => pol.domain_allow.matches host2 && !(pol.domain_deny.matches host2)

/-- Spec-side combined allow-or-deny-side matcher: the domain filter or the
IP filter, selected by whether the (stripped) host parses as an IP. -/
def combinedMatches (parseIp : List Nat → Option IpAddr)
    (df : DomainFilter) (ipf : IpFilter) (host2 : List Nat) : Bool :=
  match parseIp host2 with
  | some addr => ipf.matches addr
  | none => df.matches host2

theorem stripHost_bracketed (h : List Nat) :
    stripHost (91 :: (h ++ [93])) = h := by
  unfold stripHost
  simp

/-- C3: `is_host_allowed(h)` equals `allow.matches(h) && !deny.matches(h)`
where the stripped host is checked against the CIDR filters when it parses
as an IP address and against the domain filters otherwise; and a bracketed
host `[h]` (for `h` unaffected by stripping, e.g. an IPv6 literal) is
decided identically to `h`, in particular `[::1]` identically to `::1`. -/
theorem is_host_allowed_spec :
    (∀ parseIp pol host,
        EgressPolicy.is_host_allowed parseIp pol host =
          (combinedMatches parseIp pol.domain_allow pol.ip_allow (stripHost host) &&
            !(combinedMatches parseIp pol.domain_deny pol.ip_deny (stripHost host)))) ∧
    (∀ parseIp pol host, stripHost host = host →
        EgressPolicy.is_host_allowed parseIp pol (91 :: (host ++ [93])) =
          EgressPolicy.is_host_allowed parseIp pol host) ∧
    (∀ parseIp pol,
        EgressPolicy.is_host_allowed parseIp pol (str ("[::1]")) =
          EgressPolicy.is_host_allowed parseIp pol (str ("::1"))) := by
  refine ⟨?_, ?_, ?_⟩
  · intro parseIp pol host
    unfold EgressPolicy.is_host_allowed combinedMatches
    cases hp : parseIp (stripHost host) <;> simp [hp]
  · intro parseIp pol host hfix
    unfold EgressPolicy.is_host_allowed
    rw [stripHost_bracketed, hfix]
  · intro parseIp pol
    have h1 : stripHost (str ("[::1]")) = stripHost (str ("::1")) := by decide
    unfold EgressPolicy.is_host_allowed
    rw [h1]

/-- C3 witness: the bracket-stripping conjunct applied to the concrete host
`::1`, an always-`none` parse function and the empty policy. -/
theorem is_host_allowed_spec_witness :
    stripHost (str ("::1")) = str ("::1") ∧
    EgressPolicy.is_host_allowed (fun _ => none)
        (EgressPolicy.mk (DomainFilter.mk []) (DomainFilter.mk [])
          (IpFilter.mk []) (IpFilter.mk [])) (91 :: (str ("::1") ++ [93])) =
      EgressPolicy.is_host_allowed (fun _ => none)
        (EgressPolicy.mk (DomainFilter.mk []) (DomainFilter.mk [])
          (IpFilter.mk []) (IpFilter.mk [])) (str ("::1")) :=
  ⟨by decide,
    is_host_allowed_spec.2.1 (fun _ => none)
      (EgressPolicy.mk (DomainFilter.mk []) (DomainFilter.mk [])
        (IpFilter.mk []) (IpFilter.mk [])) (str ("::1")) (by decide)⟩

/-! ## Circular byte log (src/enclaver/src/bin/odyn/console.rs)

`ByteLog` wraps the external `circbuf::CircBuf`, modelled as an ideal ring:
the buffered bytes are a list, `avail` is capacity minus length, `write`
appends what fits, `advance_read` drops from the front (failing, and being
ignored, when asked for more than is buffered), and `get_bytes_upto_size n`
yields the first `min n len` bytes. The operations are stated over an
arbitrary capacity `C` and specialised to `APP_LOG_CAPACITY` under the
source names. -/

/-- `APP_LOG_CAPACITY` from console.rs: 128 KiB. -/
def APP_LOG_CAPACITY : Nat := 128 * 1024

/-- `ByteLog` state: buffered bytes plus the absolute index `head` of the
oldest still-buffered byte. -/
structure ByteLog where
  buffer : List Nat
  head : Nat
  deriving DecidableEq, Repr

/-- `ByteLog::new`: empty buffer, head 0. -/
def ByteLog.new : ByteLog := ByteLog.mk [] 0

/-- `CircBuf::advance_read`: drop `n` bytes from the front; when `n` exceeds
the buffered length the call errors, which `append` ignores, leaving the
buffer unchanged. -/
def advanceRead (buf : List Nat) (n : Nat) : List Nat :=
  if n ≤ buf.length then buf.drop n else buf

/-- `ByteLog::append` at capacity `C`: trim from the head when there is not
enough free space, then write. Returns `none` when one of the two `assert!`s
in the source would panic, otherwise `some (trim_cnt, new_state, notified)`;
the `Bool` records that `watches.notify()` ran (it always does on the
non-panicking path, even for empty input). -/
def appendC (C : Nat) (log : ByteLog) (data : List Nat) :
    Option (Nat × ByteLog × Bool) :=
  let avail := C - log.buffer.length
  let st :=
    if avail < data.length then
      (data.length - avail, advanceRead log.buffer (data.length - avail),
        log.head + (data.length - avail))
    else (0, log.buffer, log.head)
  if C - st.2.1.length < data.length then none
  else if ¬ min (C - st.2.1.length) data.length = data.length then none
  else some (st.1, ByteLog.mk (st.2.1 ++ data) st.2.2, true)

/-- `ByteLog::append` at the source's fixed capacity. -/
def ByteLog.append (log : ByteLog) (data : List Nat) : Option (Nat × ByteLog × Bool) :=
  appendC APP_LOG_CAPACITY log data

/-- Iterated `append` at capacity `C`, keeping only the state (`none` on any
panic). -/
def appendAllC (C : Nat) (log : ByteLog) (datas : List (List Nat)) : Option ByteLog :=
  match datas with
  | [] => some log
  | d :: ds =>
    match appendC C log d with
    | none => none
    | some r => appendAllC C r.2.1 ds

/-- Iterated `ByteLog::append` at the source's fixed capacity. -/
def ByteLog.appendAll (log : ByteLog) (datas : List (List Nat)) : Option ByteLog :=
  appendAllC APP_LOG_CAPACITY log datas

/-- One non-panicking `append` step, in closed form: with at most the
capacity buffered and input no longer than the capacity, `append` trims
`len + |data| - C` bytes, drops them from the front, and appends. -/
theorem appendC_of_le (C : Nat) (log : ByteLog) (data : List Nat)
    (hbuf : log.buffer.length ≤ C) (hd : data.length ≤ C) :
    appendC C log data = some (log.buffer.length + data.length - C,
      ByteLog.mk ((log.buffer ++ data).drop (log.buffer.length + data.length - C))
        (log.head + (log.buffer.length + data.length - C)), true) := by
  unfold appendC advanceRead
  by_cases hav : C - log.buffer.length < data.length
  · have htrim : data.length - (C - log.buffer.length) =
        log.buffer.length + data.length - C := by omega
    have htrim_le : data.length - (C - log.buffer.length) ≤ log.buffer.length := by
      omega
    simp only [if_pos hav, if_pos htrim_le]
    have hlen : (log.buffer.drop (data.length - (C - log.buffer.length))).length =
        C - data.length := by
      rw [List.length_drop]
      omega
    rw [hlen]
    have h1 : ¬ C - (C - data.length) < data.length := by omega
    have h2 : min (C - (C - data.length)) data.length = data.length := by omega
    rw [if_neg h1, if_neg (by simp [h2])]
    rw [htrim, List.drop_append_of_le_length (by omega)]
  · have htrim0 : log.buffer.length + data.length - C = 0 := by omega
    simp only [if_neg hav]
    have h2 : min (C - log.buffer.length) data.length = data.length := by omega
    rw [if_neg (by simp [h2])]
    rw [htrim0]
    simp

/-- Iterated appends in closed form, phrased via the history `H` of all
bytes ever appended: the buffer is the last `min |H| C` bytes of `H` and the
head is `|H| - C` (truncated subtraction). -/
theorem appendAllC_spec (C : Nat) (datas : List (List Nat)) :
    ∀ H : List Nat, (∀ d ∈ datas, d.length ≤ C) →
    appendAllC C (ByteLog.mk (H.drop (H.length - C)) (H.length - C)) datas =
      some (ByteLog.mk
        ((H ++ datas.flatten).drop ((H ++ datas.flatten).length - C))
        ((H ++ datas.flatten).length - C)) := by
  induction datas with
  | nil =>
    intro H _
    unfold appendAllC
    simp
  | cons d ds ih =>
    intro H h
    have hd : d.length ≤ C := h d (List.mem_cons_self d ds)
    have hbuf : (H.drop (H.length - C)).length ≤ C := by
      rw [List.length_drop]
      omega
    unfold appendAllC
    rw [appendC_of_le C _ _ hbuf hd]
    have hstep :
        ByteLog.mk
          (((H.drop (H.length - C)) ++ d).drop
            ((H.drop (H.length - C)).length + d.length - C))
          ((H.length - C) + ((H.drop (H.length - C)).length + d.length - C)) =
        ByteLog.mk ((H ++ d).drop ((H ++ d).length - C)) ((H ++ d).length - C) := by
      have hdropapp : (H.drop (H.length - C)) ++ d = (H ++ d).drop (H.length - C) := by
        rw [List.drop_append_of_le_length (by omega)]
      rw [hdropapp, List.drop_drop, List.length_drop]
      have harith : H.length - C + (H.length - (H.length - C) + d.length - C) =
          (H ++ d).length - C := by
        simp only [List.length_append]
        omega
      rw [harith]
    rw [hstep]
    have hds : ∀ x ∈ ds, x.length ≤ C := fun x hx => h x (List.mem_cons_of_mem d hx)
    dsimp only
    rw [ih (H ++ d) hds]
    simp [List.append_assoc]

theorem appendAllC_new (C : Nat) (datas : List (List Nat))
    (h : ∀ d ∈ datas, d.length ≤ C) :
    appendAllC C ByteLog.new datas =
      some (ByteLog.mk (datas.flatten.drop (datas.flatten.length - C))
        (datas.flatten.length - C)) := by
  have hnew : ByteLog.new =
      ByteLog.mk (([] : List Nat).drop (([] : List Nat).length - C))
        (([] : List Nat).length - C) := by
    simp [ByteLog.new]
  rw [hnew, appendAllC_spec C datas [] h]
  simp

/-- C5: after any sequence of appends, each no longer than the 128 KiB
capacity C, with total appended size S, the appends never panic, the number
of buffered bytes is `min S C`, the head — the absolute index of the oldest
buffered byte — is `S - C` (that is, `max 0 (S - C)` over the integers), and
the head after any prefix of the appends is at most the final head. -/
theorem byteLog_append_invariant (datas : List (List Nat))
    (h : ∀ d ∈ datas, d.length ≤ APP_LOG_CAPACITY) :
    ∃ log, ByteLog.appendAll ByteLog.new datas = some log ∧
      log.buffer.length = min datas.flatten.length APP_LOG_CAPACITY ∧
      log.head = datas.flatten.length - APP_LOG_CAPACITY ∧
      ∀ pre suf, datas = pre ++ suf →
        ∃ logPre, ByteLog.appendAll ByteLog.new pre = some logPre ∧
          logPre.head ≤ log.head := by
  refine ⟨_, appendAllC_new APP_LOG_CAPACITY datas h, ?_, ?_, ?_⟩
  · simp only [List.length_drop]
    omega
  · rfl
  · intro pre suf hsplit
    have hpre : ∀ d ∈ pre, d.length ≤ APP_LOG_CAPACITY := by
      intro d hd
      exact h d (by rw [hsplit]; exact List.mem_append_left suf hd)
    refine ⟨_, appendAllC_new APP_LOG_CAPACITY pre hpre, ?_⟩
    have : pre.flatten.length ≤ datas.flatten.length := by
      rw [hsplit, List.flatten_append, List.length_append]
      omega
    simp only
    omega

/-- C5 witness: the invariant theorem applied to two concrete appends. -/
theorem byteLog_append_invariant_witness :
    (∀ d ∈ [[1, 2], [3]], List.length d ≤ APP_LOG_CAPACITY) ∧
    (∃ log, ByteLog.appendAll ByteLog.new [[1, 2], [3]] = some log ∧
      log.buffer.length = min ([[1, 2], [3]] : List (List Nat)).flatten.length
        APP_LOG_CAPACITY ∧
      log.head = ([[1, 2], [3]] : List (List Nat)).flatten.length - APP_LOG_CAPACITY ∧
      ∀ pre suf, ([[1, 2], [3]] : List (List Nat)) = pre ++ suf →
        ∃ logPre, ByteLog.appendAll ByteLog.new pre = some logPre ∧
          logPre.head ≤ log.head) :=
  ⟨by decide, byteLog_append_invariant [[1, 2], [3]] (by decide)⟩

/-- `ByteLog::read`: snap a lagging cursor forward to `head`, then copy at
most `buflen` bytes starting at offset `pos - head` into the ring (the
chunked `get_bytes_upto_size(buf.len() + offset)` loop of the source copies
exactly the bytes of the first `buflen + offset` ring bytes that lie past
`offset`). Returns the bytes copied and the updated cursor position. -/
def ByteLog.read (log : ByteLog) (pos : Nat) (buflen : Nat) : List Nat × Nat :=
  let pos2 := if pos < log.head then log.head else pos
  let offset := pos2 - log.head
  let out := (log.buffer.take (buflen + offset)).drop offset
  (out, pos2 + out.length)

/-- `read` at a cursor not lagging behind `head`, in closed form. -/
theorem ByteLog.read_eq (log : ByteLog) (pos buflen : Nat) (hge : log.head ≤ pos) :
    log.read pos buflen = ((log.buffer.drop (pos - log.head)).take buflen,
      pos + ((log.buffer.drop (pos - log.head)).take buflen).length) := by
  simp only [ByteLog.read]
  rw [if_neg (by omega), List.drop_take]
  have h : buflen + (pos - log.head) - (pos - log.head) = buflen := by omega
  rw [h]

/-- A lagging cursor reads the same as a cursor exactly at `head`. -/
theorem ByteLog.read_snap (log : ByteLog) (pos buflen : Nat) (hle : pos ≤ log.head) :
    log.read pos buflen = log.read log.head buflen := by
  simp only [ByteLog.read]
  by_cases h : pos < log.head
  · rw [if_pos h, if_neg (lt_irrefl _)]
  · have hp : pos = log.head := by omega
    rw [hp]

/-- A nonempty read strictly advances the cursor, which must have started
before the end of the buffered range. -/
theorem ByteLog.read_progress (log : ByteLog) (pos buflen : Nat)
    (h : ¬ (log.read pos buflen).1 = []) :
    pos < log.head + log.buffer.length ∧ pos < (log.read pos buflen).2 := by
  rcases le_or_lt pos log.head with hle | hgt
  · rw [ByteLog.read_snap log pos buflen hle] at h ⊢
    rw [ByteLog.read_eq log log.head buflen (le_refl _)] at h ⊢
    simp only [Nat.sub_self, List.drop_zero] at h ⊢
    have h2 : 0 < (log.buffer.take buflen).length := List.length_pos.mpr h
    rw [List.length_take] at h2 ⊢
    constructor <;> omega
  · have hge : log.head ≤ pos := le_of_lt hgt
    rw [ByteLog.read_eq log pos buflen hge] at h ⊢
    simp only at h ⊢
    have h2 : 0 < ((log.buffer.drop (pos - log.head)).take buflen).length :=
      List.length_pos.mpr h
    rw [List.length_take, List.length_drop] at h2 ⊢
    constructor <;> omega

/-- Reading repeatedly with a fixed chunk size until a read returns no
bytes, concatenating everything read (the `write_all` loop of the source). -/
def ByteLog.readAll (log : ByteLog) (buflen : Nat) (pos : Nat) : List Nat :=
  if h : (log.read pos buflen).1 = [] then []
  else (log.read pos buflen).1 ++ log.readAll buflen (log.read pos buflen).2
termination_by log.head + log.buffer.length - pos
decreasing_by
  have hp := ByteLog.read_progress log pos buflen h
  omega

theorem take_append_drop_len (x : List Nat) (n : Nat) :
    x.take n ++ x.drop (x.take n).length = x := by
  rw [List.length_take]
  rcases le_total n x.length with h | h
  · rw [min_eq_left h, List.take_append_drop]
  · rw [min_eq_right h, List.take_of_length_le h, List.drop_length, List.append_nil]

/-- Reading everything from `head + k` yields the buffer minus its first
`k` bytes. -/
theorem ByteLog.readAll_drop (log : ByteLog) (buflen : Nat) (hb : 1 ≤ buflen) :
    ∀ n k, log.buffer.length - k ≤ n →
      log.readAll buflen (log.head + k) = log.buffer.drop k := by
  intro n
  induction n with
  | zero =>
    intro k hk
    rw [ByteLog.readAll]
    have hread := ByteLog.read_eq log (log.head + k) buflen (by omega)
    have hfst : (log.read (log.head + k) buflen).1 = [] := by
      rw [hread]
      have hkk : log.head + k - log.head = k := by omega
      simp only [hkk]
      rw [List.drop_eq_nil_of_le (by omega), List.take_nil]
    rw [dif_pos hfst, List.drop_eq_nil_of_le (by omega)]
  | succ n ih =>
    intro k hk
    rw [ByteLog.readAll]
    have hread := ByteLog.read_eq log (log.head + k) buflen (by omega)
    have hkk : log.head + k - log.head = k := by omega
    rw [hkk] at hread
    by_cases hfst : (log.read (log.head + k) buflen).1 = []
    · rw [dif_pos hfst]
      rw [hread] at hfst
      simp only at hfst
      rcases List.take_eq_nil_iff.mp hfst with h0 | h0
      · omega
      · rw [h0]
    · rw [dif_neg hfst, hread]
      simp only
      have houtpos : 0 < ((log.buffer.drop k).take buflen).length := by
        apply List.length_pos.mpr
        intro hc
        apply hfst
        rw [hread]
        simpa using hc
      have harr : log.head + k + ((log.buffer.drop k).take buflen).length =
          log.head + (k + ((log.buffer.drop k).take buflen).length) := by omega
      rw [harr, ih (k + ((log.buffer.drop k).take buflen).length) (by
        rw [List.length_take, List.length_drop] at houtpos ⊢
        omega)]
      rw [← List.drop_drop]
      have hlen2 : ((log.buffer.drop k).take buflen).length =
          ((log.buffer.drop k).take buflen).length := rfl
      exact take_append_drop_len (log.buffer.drop k) buflen

/-- A lagging or fresh cursor reads out exactly the whole buffer. -/
theorem ByteLog.readAll_le_head (log : ByteLog) (buflen : Nat) (hb : 1 ≤ buflen)
    (pos : Nat) (hle : pos ≤ log.head) :
    log.readAll buflen pos = log.buffer := by
  have hsnap : log.readAll buflen pos = log.readAll buflen log.head := by
    conv_lhs => rw [ByteLog.readAll]
    conv_rhs => rw [ByteLog.readAll]
    rw [ByteLog.read_snap log pos buflen hle]
  rw [hsnap]
  have h := ByteLog.readAll_drop log buflen hb log.buffer.length 0 (by omega)
  simpa using h

/-- C6: appending `datas` (each slice no longer than the capacity, total
`N` bytes) to a fresh log and then reading from a fresh cursor at position 0
in chunks of any positive size until a read returns nothing yields exactly
the last `min N C` bytes of the concatenation of all appended data; and any
cursor lagging at or behind `head` is snapped forward and likewise reads
exactly the buffered suffix, with nothing duplicated or skipped. -/
theorem byteLog_read_round_trip (datas : List (List Nat))
    (h : ∀ d ∈ datas, d.length ≤ APP_LOG_CAPACITY)
    (buflen : Nat) (hb : 1 ≤ buflen) :
    ∃ log, ByteLog.appendAll ByteLog.new datas = some log ∧
      log.readAll buflen 0 =
        datas.flatten.drop (datas.flatten.length - APP_LOG_CAPACITY) ∧
      ∀ pos, pos ≤ log.head → log.readAll buflen pos = log.buffer := by
  refine ⟨ByteLog.mk (datas.flatten.drop (datas.flatten.length - APP_LOG_CAPACITY))
      (datas.flatten.length - APP_LOG_CAPACITY),
    appendAllC_new APP_LOG_CAPACITY datas h, ?_, ?_⟩
  · rw [ByteLog.readAll_le_head
      (ByteLog.mk (datas.flatten.drop (datas.flatten.length - APP_LOG_CAPACITY))
        (datas.flatten.length - APP_LOG_CAPACITY)) buflen hb 0 (Nat.zero_le _)]
  · intro pos hpos
    rw [ByteLog.readAll_le_head
      (ByteLog.mk (datas.flatten.drop (datas.flatten.length - APP_LOG_CAPACITY))
        (datas.flatten.length - APP_LOG_CAPACITY)) buflen hb pos hpos]

/-- C6 witness: the round-trip theorem at two concrete appends and chunk
size 1. -/
theorem byteLog_read_round_trip_witness :
    (∀ d ∈ [[1, 2], [3]], List.length d ≤ APP_LOG_CAPACITY) ∧ 1 ≤ 1 ∧
    (∃ log, ByteLog.appendAll ByteLog.new [[1, 2], [3]] = some log ∧
      log.readAll 1 0 = ([[1, 2], [3]] : List (List Nat)).flatten.drop
        (([[1, 2], [3]] : List (List Nat)).flatten.length - APP_LOG_CAPACITY) ∧
      ∀ pos, pos ≤ log.head → log.readAll 1 pos = log.buffer) :=
  ⟨by decide, le_refl 1, byteLog_read_round_trip [[1, 2], [3]] (by decide) 1 (le_refl 1)⟩

/-- C9 (counterexample): the claim says a zero-length append "does not
notify any registered watcher", but `ByteLog::append` calls
`watches.notify()` unconditionally on its non-panicking path — also for an
empty slice: appending `[]` to a fresh log leaves the state unchanged and
returns trim 0 yet reports the notification as having happened. -/
theorem append_empty_notifies :
    ByteLog.new.append [] = some (0, ByteLog.new, true) := by
  decide

/-- C9 (amended): appending a zero-length slice leaves the entire log state
(buffer contents and head) unchanged and returns a trim count of 0, but it
still notifies the registered watchers. -/
theorem append_empty_spec (log : ByteLog) :
    log.append [] = some (0, log, true) := by
  unfold ByteLog.append appendC
  simp

/-- C10: `ByteLog::append` is assertion-safe exactly on inputs no longer
than the capacity: for every state within capacity and every slice of at
most `APP_LOG_CAPACITY` bytes both internal assertions hold and append
returns normally; a slice of `APP_LOG_CAPACITY + 1` bytes makes the first
assertion fail (a panic, modelled as `none`); and the pipe servicer's read
buffer of 16 KiB is within the capacity, so its appends always satisfy the
precondition. -/
theorem byteLog_append_assertion_safety :
    (∀ log data, log.buffer.length ≤ APP_LOG_CAPACITY →
      data.length ≤ APP_LOG_CAPACITY → (ByteLog.append log data).isSome = true) ∧
    ((List.replicate (APP_LOG_CAPACITY + 1) 0).length > APP_LOG_CAPACITY ∧
      ByteLog.new.append (List.replicate (APP_LOG_CAPACITY + 1) 0) = none) ∧
    (16 * 1024 ≤ APP_LOG_CAPACITY ∧
      ∀ log data, log.buffer.length ≤ APP_LOG_CAPACITY →
        data.length ≤ 16 * 1024 → (ByteLog.append log data).isSome = true) := by
  have h1 : ∀ log data, log.buffer.length ≤ APP_LOG_CAPACITY →
      data.length ≤ APP_LOG_CAPACITY → (ByteLog.append log data).isSome = true := by
    intro log data hbuf hd
    unfold ByteLog.append
    rw [appendC_of_le APP_LOG_CAPACITY log data hbuf hd]
    rfl
  have hcap : 16 * 1024 ≤ APP_LOG_CAPACITY := by decide
  refine ⟨h1, ⟨?_, ?_⟩, hcap, ?_⟩
  · rw [List.length_replicate]
    omega
  · have hover : ∀ C : Nat, appendC C ByteLog.new (List.replicate (C + 1) 0) = none := by
      intro C
      unfold appendC advanceRead ByteLog.new
      simp only [List.length_nil, Nat.sub_zero, List.length_replicate]
      rw [if_pos (by omega)]
    exact hover APP_LOG_CAPACITY
  · intro log data hbuf hd
    exact h1 log data hbuf (le_trans hd hcap)

/-- C10 witness: assertion safety applied to a concrete small append. -/
theorem byteLog_append_assertion_safety_witness :
    (ByteLog.new.buffer.length ≤ APP_LOG_CAPACITY ∧
      ([5, 6, 7] : List Nat).length ≤ APP_LOG_CAPACITY) ∧
    (ByteLog.new.append [5, 6, 7]).isSome = true :=
  ⟨⟨by decide, by decide⟩,
    byteLog_append_assertion_safety.1 ByteLog.new [5, 6, 7] (by decide) (by decide)⟩

/-! ## CMS / PKCS#7 validation (src/enclaver/src/proxy/pkcs7.rs)

The BER wire format and the `asn1_rs` parser are external; the embedding
starts from the parsed structures. A BER `Any` that the code re-interprets
(the OAEP parameters, the MGF hash OID) is modelled as an `Option` of its
interpretation, `none` standing for an `asn1_rs` parse error at that spot. -/

/-- `2.16.840.1.101.3.4.2.1` — SHA-256. -/
def OID_NIST_SHA_256 : List Nat := [2, 16, 840, 1, 101, 3, 4, 2, 1]

/-- `2.16.840.1.101.3.4.1.42` — AES-256-CBC. -/
def OID_NIST_AES256_CBC : List Nat := [2, 16, 840, 1, 101, 3, 4, 1, 42]

/-- `1.2.840.113549.1.1.7` — RSAES-OAEP. -/
def OID_PKCS1_RSA_OAEP : List Nat := [1, 2, 840, 113549, 1, 1, 7]

/-- `1.2.840.113549.1.1.8` — MGF1. -/
def OID_PKCS1_MGF : List Nat := [1, 2, 840, 113549, 1, 1, 8]

/-- `1.2.840.113549.1.7.3` — PKCS#7 enveloped-data. -/
def OID_PKCS7_ENVELOPED_DATA : List Nat := [1, 2, 840, 113549, 1, 7, 3]

/-- `1.2.840.113549.1.7.1` — PKCS#7 data. -/
def OID_PKCS7_DATA : List Nat := [1, 2, 840, 113549, 1, 7, 1]

/-- BER tag class (`asn1_rs::Class`). -/
inductive BerClass where
  | universal
  | application
  | contextSpecific
  | privateClass
  deriving DecidableEq, Repr

/-- An `AlgorithmIdentifier` whose parameters are never inspected:
only the algorithm OID is kept. -/
structure HashAlgId where
  algorithm : List Nat
  deriving DecidableEq, Repr

/-- The mask-generation `AlgorithmIdentifier`: its BER `Any` parameter is
re-parsed with `Oid::from_ber`; `some (some oid)` is a present parameter
parsing to `oid`, `some none` a present parameter that fails to parse,
`none` an absent parameter. -/
structure MgfAlgId where
  algorithm : List Nat
  parameters : Option (Option (List Nat))
  deriving DecidableEq, Repr

/-- `RSAES-OAEP-params` as parsed by `TryFrom<Any> for RsaesOaepParameters`. -/
structure RsaesOaepParameters where
  hash_alg : Option HashAlgId
  mask_gen_alg : Option MgfAlgId
  p_source_alg : Option HashAlgId
  deriving DecidableEq, Repr

/-- The recipient's key-encryption `AlgorithmIdentifier`: its BER `Any`
parameter is re-parsed as `RsaesOaepParameters` (inner `none` = parse
error), and may be absent (outer `none`). -/
structure KeyEncAlgId where
  algorithm : List Nat
  parameters : Option (Option RsaesOaepParameters)
  deriving DecidableEq, Repr

/-- `KeyTransRecipientInfo` (the `rid` field is never inspected). -/
structure KeyTransRecipientInfo where
  version : Int
  key_encryption_algorithm : KeyEncAlgId
  encrypted_key : List Nat
  deriving DecidableEq, Repr

/-- The content-encryption `AlgorithmIdentifier`; its parameter is the IV,
consumed only by decryption. -/
structure ContentEncAlgId where
  algorithm : List Nat
  parameters : Option (List Nat)
  deriving DecidableEq, Repr

/-- The `encrypted_content` BER `Any`: header class/tag/constructed plus
raw content bytes. -/
structure EncryptedContentAny where
  berClass : BerClass
  tag : Nat
  constructed : Bool
  data : List Nat
  deriving DecidableEq, Repr

/-- `EncryptedContentInfo`. -/
structure EncryptedContentInfo where
  content_type : List Nat
  content_encryption_algorithm : ContentEncAlgId
  encrypted_content : EncryptedContentAny
  deriving DecidableEq, Repr

/-- `EnvelopedData` (`originator_info` and `unprotected_attrs` are never
inspected and omitted). -/
structure EnvelopedData where
  version : Int
  recipient_infos : List KeyTransRecipientInfo
  encrypted_content_info : EncryptedContentInfo
  deriving DecidableEq, Repr

/-- `ContentInfo`. -/
structure ContentInfo where
  content_type : List Nat
  content : EnvelopedData
  deriving DecidableEq, Repr

/-- `asn1_rs::Integer::as_i32`: errors when out of the i32 range. -/
def Integer.as_i32 (v : Int) : Except String Int :=
  if -2147483648 ≤ v ∧ v ≤ 2147483647 then Except.ok v
  else Except.error ("integer out of i32 range")

/-- `RsaesOaepParameters::validate`: SHA-256 hash, MGF1 with SHA-256. -/
def RsaesOaepParameters.validate (p : RsaesOaepParameters) : Except String Unit :=
  match p.hash_alg with
  | some alg =>
    if alg.algorithm ≠ OID_NIST_SHA_256 then
      Except.error ("unexpected hash_func")
    else
      match p.mask_gen_alg with
      | some malg =>
        if malg.algorithm ≠ OID_PKCS1_MGF then
          Except.error ("unexpected mask_gen_func")
        else
          match malg.parameters with
          | some oidres =>
            match oidres with
            | some mgfHash =>
              if mgfHash ≠ OID_NIST_SHA_256 then
                Except.error ("unexpected mask_gen_func.hash")
              else Except.ok ()
            | none => Except.error ("mask_gen_func.parameters does not parse as an OID")
          | none => Except.error ("missing mask_gen_func.parameters")
      | none => Except.error ("missing mask_gen_func")
  | none => Except.error ("missing hash_func")

/-- `KeyTransRecipientInfo::validate`: version 2, RSAES-OAEP, and valid
OAEP parameters. -/
def KeyTransRecipientInfo.validate (r : KeyTransRecipientInfo) : Except String Unit :=
  match Integer.as_i32 r.version with
  | Except.error e => Except.error e
  | Except.ok ver =>
    if ver ≠ 2 then Except.error ("unexpected KeyTransRecipientInfo.version")
    else if r.key_encryption_algorithm.algorithm ≠ OID_PKCS1_RSA_OAEP then
      Except.error ("unexpected key_encryption_algorithm.algorithm")
    else
      match r.key_encryption_algorithm.parameters with
      | some pres =>
        match pres with
        | some p => p.validate
        | none => Except.error ("parameters do not parse as RSAES-OAEP-params")
      | none => Except.error ("missing key_encryption_algorithm.parameters")

/-- `EncryptedContentInfo::validate`: PKCS#7 data content type, AES-256-CBC,
and a context-specific tag-0 encrypted content. -/
def EncryptedContentInfo.validate (e : EncryptedContentInfo) : Except String Unit :=
  if e.content_type ≠ OID_PKCS7_DATA then
    Except.error ("unexpected EncryptedContentInfo.content_type")
  else if e.content_encryption_algorithm.algorithm ≠ OID_NIST_AES256_CBC then
    Except.error ("unexpected content_encryption_algorithm")
  else if e.encrypted_content.berClass ≠ BerClass.contextSpecific then
    Except.error ("unexpected encrypted_content.class")
  else if e.encrypted_content.tag ≠ 0 then
    Except.error ("unexpected encrypted_content.tag")
  else Except.ok ()

/-- `EnvelopedData::validate`: version 2, exactly one recipient, the
recipient and the encrypted-content info both valid. -/
def EnvelopedData.validate (ed : EnvelopedData) : Except String Unit :=
  match Integer.as_i32 ed.version with
  | Except.error e => Except.error e
  | Except.ok ver =>
    if ver ≠ 2 then Except.error ("unexpected EnvelopedData.version")
    else if ed.recipient_infos.length ≠ 1 then
      Except.error ("unexpected EnvelopedData.recipient_infos length")
    else
      match ed.recipient_infos with
      | [] => Except.error ("no recipient")
      | r :: _ =>
        match r.validate with
        | Except.error e => Except.error e
        | Except.ok _ => ed.encrypted_content_info.validate

/-- `ContentInfo::validate`: enveloped-data content type, then the content. -/
def ContentInfo.validate (ci : ContentInfo) : Except String Unit :=
  if ci.content_type ≠ OID_PKCS7_ENVELOPED_DATA then
    Except.error ("unexpected content type")
  else ci.content.validate

/-- `KmsProxyHandler::decrypt_cms`: `ContentInfo::parse_ber` validates
before returning, and only then is `decrypt_content` (RSA-OAEP key unwrap
plus AES-256-CBC, external crypto modelled as an arbitrary function)
invoked. A validation failure yields an error without any decryption. -/
def decrypt_cms (decrypt_content : ContentInfo → List Nat) (ci : ContentInfo) :
    Except String (List Nat) :=
  match ci.validate with
  | Except.error e => Except.error e
  | Except.ok _ => Except.ok (decrypt_content ci)

theorem oaep_validate_ok (p : RsaesOaepParameters)
    (h : p.validate = Except.ok ()) :
    (∃ halg, p.hash_alg = some halg ∧ halg.algorithm = OID_NIST_SHA_256) ∧
    (∃ malg, p.mask_gen_alg = some malg ∧ malg.algorithm = OID_PKCS1_MGF ∧
      malg.parameters = some (some OID_NIST_SHA_256)) := by
  unfold RsaesOaepParameters.validate at h
  cases hha : p.hash_alg with
  | none => rw [hha] at h; cases h
  | some halg =>
    rw [hha] at h
    dsimp only at h
    by_cases h1 : halg.algorithm ≠ OID_NIST_SHA_256
    · rw [if_pos h1] at h; cases h
    · rw [if_neg h1] at h
      push_neg at h1
      cases hma : p.mask_gen_alg with
      | none => rw [hma] at h; cases h
      | some malg =>
        rw [hma] at h
        dsimp only at h
        by_cases h2 : malg.algorithm ≠ OID_PKCS1_MGF
        · rw [if_pos h2] at h; cases h
        · rw [if_neg h2] at h
          push_neg at h2
          cases hmp : malg.parameters with
          | none => rw [hmp] at h; cases h
          | some oidres =>
            rw [hmp] at h
            dsimp only at h
            cases oidres with
            | none => cases h
            | some mgfHash =>
              dsimp only at h
              by_cases h3 : mgfHash ≠ OID_NIST_SHA_256
              · rw [if_pos h3] at h; cases h
              · push_neg at h3
                subst h3
                exact ⟨⟨halg, rfl, h1⟩, ⟨malg, rfl, h2, hmp⟩⟩

theorem ktri_validate_ok (r : KeyTransRecipientInfo)
    (h : r.validate = Except.ok ()) :
    r.key_encryption_algorithm.algorithm = OID_PKCS1_RSA_OAEP ∧
    ∃ p, r.key_encryption_algorithm.parameters = some (some p) ∧
      (∃ halg, p.hash_alg = some halg ∧ halg.algorithm = OID_NIST_SHA_256) ∧
      (∃ malg, p.mask_gen_alg = some malg ∧ malg.algorithm = OID_PKCS1_MGF ∧
        malg.parameters = some (some OID_NIST_SHA_256)) := by
  unfold KeyTransRecipientInfo.validate at h
  cases hv : Integer.as_i32 r.version with
  | error e => rw [hv] at h; cases h
  | ok ver =>
    rw [hv] at h
    dsimp only at h
    by_cases h1 : ver ≠ 2
    · rw [if_pos h1] at h; cases h
    · rw [if_neg h1] at h
      by_cases h2 : r.key_encryption_algorithm.algorithm ≠ OID_PKCS1_RSA_OAEP
      · rw [if_pos h2] at h; cases h
      · rw [if_neg h2] at h
        push_neg at h2
        cases hp : r.key_encryption_algorithm.parameters with
        | none => rw [hp] at h; cases h
        | some pres =>
          rw [hp] at h
          dsimp only at h
          cases pres with
          | none => cases h
          | some p =>
            dsimp only at h
            obtain ⟨hh, hm⟩ := oaep_validate_ok p h
            exact ⟨h2, p, rfl, hh, hm⟩

theorem eci_validate_ok (e : EncryptedContentInfo)
    (h : e.validate = Except.ok ()) :
    e.content_encryption_algorithm.algorithm = OID_NIST_AES256_CBC := by
  unfold EncryptedContentInfo.validate at h
  by_cases h1 : e.content_type ≠ OID_PKCS7_DATA
  · rw [if_pos h1] at h; cases h
  · rw [if_neg h1] at h
    by_cases h2 : e.content_encryption_algorithm.algorithm ≠ OID_NIST_AES256_CBC
    · rw [if_pos h2] at h; cases h
    · push_neg at h2
      exact h2

theorem enveloped_validate_ok (ed : EnvelopedData)
    (h : ed.validate = Except.ok ()) :
    ed.recipient_infos.length = 1 ∧
    (∀ r ∈ ed.recipient_infos, r.validate = Except.ok ()) ∧
    ed.encrypted_content_info.validate = Except.ok () := by
  unfold EnvelopedData.validate at h
  cases hv : Integer.as_i32 ed.version with
  | error e => rw [hv] at h; cases h
  | ok ver =>
    rw [hv] at h
    dsimp only at h
    by_cases h1 : ver ≠ 2
    · rw [if_pos h1] at h; cases h
    · rw [if_neg h1] at h
      by_cases h2 : ed.recipient_infos.length ≠ 1
      · rw [if_pos h2] at h; cases h
      · rw [if_neg h2] at h
        push_neg at h2
        cases hri : ed.recipient_infos with
        | nil => rw [hri] at h; cases h
        | cons r rest =>
          rw [hri] at h
          dsimp only at h
          cases hrv : r.validate with
          | error e => rw [hrv] at h; cases h
          | ok u =>
            rw [hrv] at h
            dsimp only at h
            have hrest : rest = [] := by
              rw [hri] at h2
              simp only [List.length_cons, Nat.add_eq_right] at h2
              exact List.length_eq_zero.mp h2
            refine ⟨by rw [hrest]; rfl, ?_, h⟩
            intro x hx
            rw [hrest] at hx
            simp only [List.mem_singleton] at hx
            subst hx
            cases u
            exact hrv

/-- C2: CMS/PKCS#7 handling of a KMS recipient ciphertext decrypts only
blobs that validate: whenever `decrypt_cms` succeeds, the content-info is
enveloped-data, there is exactly one `KeyTransRecipientInfo`, its
key-encryption algorithm is RSAES-OAEP with SHA-256 hash and MGF1-SHA-256
mask generation, and the content-encryption algorithm is AES-256-CBC;
contrapositively any algorithm/OID mismatch yields an error for that
response with no decryption attempt. -/
theorem cms_decrypt_requires_kms_profile (dec : ContentInfo → List Nat)
    (ci : ContentInfo) (h : ∃ pt, decrypt_cms dec ci = Except.ok pt) :
    ci.content_type = OID_PKCS7_ENVELOPED_DATA ∧
    ci.content.recipient_infos.length = 1 ∧
    (∀ r ∈ ci.content.recipient_infos,
      r.key_encryption_algorithm.algorithm = OID_PKCS1_RSA_OAEP ∧
      ∃ p, r.key_encryption_algorithm.parameters = some (some p) ∧
        (∃ halg, p.hash_alg = some halg ∧ halg.algorithm = OID_NIST_SHA_256) ∧
        (∃ malg, p.mask_gen_alg = some malg ∧ malg.algorithm = OID_PKCS1_MGF ∧
          malg.parameters = some (some OID_NIST_SHA_256))) ∧
    ci.content.encrypted_content_info.content_encryption_algorithm.algorithm =
      OID_NIST_AES256_CBC := by
  obtain ⟨pt, hpt⟩ := h
  have hv : ci.validate = Except.ok () := by
    unfold decrypt_cms at hpt
    cases hcv : ci.validate with
    | error e => rw [hcv] at hpt; cases hpt
    | ok u => cases u; rfl
  unfold ContentInfo.validate at hv
  by_cases hct : ci.content_type ≠ OID_PKCS7_ENVELOPED_DATA
  · rw [if_pos hct] at hv; cases hv
  · rw [if_neg hct] at hv
    push_neg at hct
    obtain ⟨hlen, hall, heci⟩ := enveloped_validate_ok ci.content hv
    refine ⟨hct, hlen, ?_, eci_validate_ok _ heci⟩
    intro r hr
    exact ktri_validate_ok r (hall r hr)

/-- A concrete content-info matching the KMS profile, used by the witness. -/
def ciExample : ContentInfo :=
  ContentInfo.mk OID_PKCS7_ENVELOPED_DATA
    (EnvelopedData.mk 2
      [KeyTransRecipientInfo.mk 2
        (KeyEncAlgId.mk OID_PKCS1_RSA_OAEP
          (some (some (RsaesOaepParameters.mk
            (some (HashAlgId.mk OID_NIST_SHA_256))
            (some (MgfAlgId.mk OID_PKCS1_MGF (some (some OID_NIST_SHA_256))))
            none))))
        [9, 9, 9]]
      (EncryptedContentInfo.mk OID_PKCS7_DATA
        (ContentEncAlgId.mk OID_NIST_AES256_CBC (some [0]))
        (EncryptedContentAny.mk BerClass.contextSpecific 0 false [1, 2, 3])))

/-- C2 witness: the theorem applied to `ciExample` with a trivial
decryption function; validation succeeds there, so the hypothesis holds. -/
theorem cms_decrypt_requires_kms_profile_witness :
    (∃ pt, decrypt_cms (fun _ => []) ciExample = Except.ok pt) ∧
    (ciExample.content_type = OID_PKCS7_ENVELOPED_DATA ∧
     ciExample.content.recipient_infos.length = 1 ∧
     (∀ r ∈ ciExample.content.recipient_infos,
       r.key_encryption_algorithm.algorithm = OID_PKCS1_RSA_OAEP ∧
       ∃ p, r.key_encryption_algorithm.parameters = some (some p) ∧
         (∃ halg, p.hash_alg = some halg ∧ halg.algorithm = OID_NIST_SHA_256) ∧
         (∃ malg, p.mask_gen_alg = some malg ∧ malg.algorithm = OID_PKCS1_MGF ∧
           malg.parameters = some (some OID_NIST_SHA_256))) ∧
     ciExample.content.encrypted_content_info.content_encryption_algorithm.algorithm =
       OID_NIST_AES256_CBC) :=
  ⟨⟨[], rfl⟩,
    cms_decrypt_requires_kms_profile (fun _ => []) ciExample ⟨[], rfl⟩⟩

end Enclaver
